import Mathlib

/-!
Verification of the file-auto-decompressor core against its source.

The embedding translates `src/decompressor.py` and `src/monitor.py`:
the password-retry extraction algorithm (`Decompressor.decompress`,
`Decompressor._decompress_zip`, `Decompressor.remove_original`), and the
coordinator (`CompressedFileHandler._process_file`, `_park_file`,
`_check_parked_files`, `_get_companion_files`).

Paths are `String`, timestamps are `Nat` seconds, and the file system is a
finite association list of existing paths with their sizes.  The archive
backend (Python's `zipfile` / `rarfile` / `py7zr`) is modelled by an
`ArchiveBehavior` describing how an extraction attempt with a given
password responds, exactly mirroring the exception classes and messages
the source code branches on.
-/

namespace AutoDecomp

/-- Behavior of one archive file under the backend, as the source code
distinguishes it: a plain archive extracts with no password; a protected
archive raises a "Bad password" / "password required" error unless the
correct password is supplied; a corrupt archive raises `BadZipFile`
(resp. `BadRarFile` / `Bad7zFile`); an `ioFail` archive raises some other
exception (permission, disk full, ...). -/
inductive ArchiveBehavior where
  | plain : ArchiveBehavior
  | needsPassword : String → ArchiveBehavior
  | corrupt : ArchiveBehavior
  | ioFail : ArchiveBehavior
deriving DecidableEq, Repr

/-- How one `extractall` attempt ends, mirroring the exception taxonomy in
`_decompress_zip`: success, a `RuntimeError` whose message contains
"Bad password" or "password required", a `zipfile.BadZipFile`, or any
other exception. -/
inductive AttemptResult where
  | ok : AttemptResult
  | badPassword : AttemptResult
  | badZip : AttemptResult
  | otherError : AttemptResult
deriving DecidableEq, Repr

/-- Outcome of one extraction attempt (`zipfile.ZipFile(...).extractall`
with an optional password) for an archive of the given behavior. -/
def attempt_extract : ArchiveBehavior → Option String → AttemptResult
  | .plain, _ => .ok
  | .needsPassword _, none => .badPassword
  | .needsPassword pw, some p => if p = pw then .ok else .badPassword
  | .corrupt, _ => .badZip
  | .ioFail, _ => .otherError

/-- Terminal classification of one extraction, following the taxonomy the
source distinguishes through its branch structure and log messages
("Successfully decompressed", "Unsupported file format", "exhausted all
... default passwords", "Corrupted ZIP file", "Error decompressing"). -/
inductive ExtractionOutcome where
  | success : ExtractionOutcome
  | unsupportedFormat : ExtractionOutcome
  | passwordExhausted : ExtractionOutcome
  | corrupted : ExtractionOutcome
  | ioError : ExtractionOutcome
deriving DecidableEq, Repr

/-- Password-candidate loop of `_decompress_zip` (the `for password in
self.default_passwords` loop), returning the boolean the source returns:
`true` on the first successful candidate, `false` once the list is
exhausted with bad-password errors; any other exception propagates to the
outer handlers which return `false`. -/
def password_loop_bool (zb : ArchiveBehavior) : List String → Bool
  | [] => false
  | p :: rest =>
    match attempt_extract zb (some p) with
    | .ok => true
    | .badPassword => password_loop_bool zb rest
    | .badZip => false
    | .otherError => false

/-- Classification of the password loop together with the trace of
candidates attempted, in order.  `passwordExhausted` corresponds to the
"exhausted all ... default passwords" branch; a non-password exception
raised by a candidate attempt is re-raised (`raise pwd_e`) and lands in
the outer `except` clauses (`corrupted` for `BadZipFile`, `ioError`
otherwise). -/
def password_loop (zb : ArchiveBehavior) : List String → ExtractionOutcome × List String
  | [] => (.passwordExhausted, [])
  | p :: rest =>
    match attempt_extract zb (some p) with
    | .ok => (.success, [p])
    | .badPassword =>
      let r := password_loop zb rest
      (r.1, p :: r.2)
    | .badZip => (.corrupted, [p])
    | .otherError => (.ioError, [p])

/-- Boolean result of `_decompress_zip`: first try without a password; on
a bad-password error iterate the candidate list; a `BadZipFile` or any
other exception reaches the outer handlers, which log and return
`false`. -/
def decompress_zip_bool (zb : ArchiveBehavior) (pwds : List String) : Bool :=
  match attempt_extract zb none with
  | .ok => true
  | .badPassword => password_loop_bool zb pwds
  | .badZip => false
  | .otherError => false

/-- Classification of `_decompress_zip` plus the full attempt trace:
`none` is the initial attempt without a password, `some p` an attempt with
candidate `p`. -/
def decompress_zip (zb : ArchiveBehavior) (pwds : List String) :
    ExtractionOutcome × List (Option String) :=
  match attempt_extract zb none with
  | .ok => (.success, [none])
  | .badPassword =>
    let r := password_loop zb pwds
    (r.1, none :: r.2.map some)
  | .badZip => (.corrupted, [none])
  | .otherError => (.ioError, [none])

/-- ASCII lowercase of one character, as Python's `str.lower()` acts on
the ASCII extensions the source compares against. -/
def char_lower (c : Char) : Char :=
  if 'A' ≤ c ∧ c ≤ 'Z' then Char.ofNat (c.toNat + 32) else c

/-- ASCII lowercase of a string (`str.lower()` on extension strings). -/
def str_lower (s : String) : String := String.mk (s.toList.map char_lower)

/-- Suffix of a file name as computed by `pathlib.PurePath.suffix`: the
substring from the last dot, empty when there is no dot, when the dot is
the first character of the name, or when the dot is the last character. -/
def path_suffix (name : String) : String :=
  let rev := name.toList.reverse
  let after := rev.takeWhile (fun c => c ≠ '.')
  match rev.dropWhile (fun c => c ≠ '.') with
  | '.' :: pre =>
    if pre ≠ [] ∧ after ≠ [] then String.mk ('.' :: after.reverse) else ""
  | _ => ""

/-- Boolean result of `Decompressor.decompress`: `false` when the file no
longer exists, dispatch on the lowercased extension (`.rar` and `.7z`
run the same retry algorithm through their backend when the backend
module is available, and return `false` when it is not), `false` with a
"Unsupported file format" warning otherwise. -/
def decompress (onDisk : Bool) (rarAvail sevenAvail : Bool) (name : String)
    (zb : ArchiveBehavior) (pwds : List String) : Bool :=
  if !onDisk then false
  else
    let ext := str_lower (path_suffix name)
    if ext = ".zip" then decompress_zip_bool zb pwds
    else if ext = ".rar" then
      if rarAvail then decompress_zip_bool zb pwds else false
    else if ext = ".7z" then
      if sevenAvail then decompress_zip_bool zb pwds else false
    else false

/-- Classification of `Decompressor.decompress` by which branch and log
message fires: a missing file ("File not found") and an unavailable
backend module are environmental failures (`ioError`); an unrecognised
extension is `unsupportedFormat`; a recognised extension defers to the
format routine's classification. -/
def decompress_outcome (onDisk : Bool) (rarAvail sevenAvail : Bool) (name : String)
    (zb : ArchiveBehavior) (pwds : List String) : ExtractionOutcome :=
  if !onDisk then .ioError
  else
    let ext := str_lower (path_suffix name)
    if ext = ".zip" then (decompress_zip zb pwds).1
    else if ext = ".rar" then
      if rarAvail then (decompress_zip zb pwds).1 else .ioError
    else if ext = ".7z" then
      if sevenAvail then (decompress_zip zb pwds).1 else .ioError
    else .unsupportedFormat

/-- Result of `Decompressor.remove_original` (`os.remove`): on an existing
file it succeeds and the file is gone; on a missing file the exception is
caught and logged and nothing changes.  Returns (success flag, whether the
original is still on disk afterwards). -/
def remove_original (onDisk : Bool) : Bool × Bool :=
  if onDisk then (true, false) else (false, onDisk)

/-- State left by `CompressedFileHandler._decompress_file`: run
`decompress`; only if it returned `true` call `remove_original`.  Returns
whether the original file is still on disk afterwards. -/
def decompress_file (onDisk : Bool) (rarAvail sevenAvail : Bool) (name : String)
    (zb : ArchiveBehavior) (pwds : List String) : Bool :=
  let success := decompress onDisk rarAvail sevenAvail name zb pwds
  if success then (remove_original onDisk).2 else onDisk

theorem password_loop_bool_eq (zb : ArchiveBehavior) (pwds : List String) :
    password_loop_bool zb pwds = decide ((password_loop zb pwds).1 = .success) := by
  induction pwds with
  | nil => rfl
  | cons p rest ih =>
    simp only [password_loop_bool, password_loop]
    cases zb with
    | needsPassword pw =>
      simp only [attempt_extract]
      by_cases hp : p = pw <;> simp [hp, ih]
    | plain => simp [attempt_extract]
    | corrupt => simp [attempt_extract]
    | ioFail => simp [attempt_extract]

theorem decompress_zip_bool_eq (zb : ArchiveBehavior) (pwds : List String) :
    decompress_zip_bool zb pwds = decide ((decompress_zip zb pwds).1 = .success) := by
  simp only [decompress_zip_bool, decompress_zip]
  cases zb <;> simp [attempt_extract, password_loop_bool_eq]

theorem decompress_bool_eq_outcome (onDisk rarAvail sevenAvail : Bool) (name : String)
    (zb : ArchiveBehavior) (pwds : List String) :
    decompress onDisk rarAvail sevenAvail name zb pwds =
      decide (decompress_outcome onDisk rarAvail sevenAvail name zb pwds = .success) := by
  cases onDisk with
  | false => simp [decompress, decompress_outcome]
  | true =>
    simp only [decompress, decompress_outcome]
    split_ifs <;> simp [decompress_zip_bool_eq]

/-- Helper: the first-success shape of the password-candidate loop.  When
the correct password of a protected archive occurs first at index `k` of
the candidate list, the loop attempts exactly the candidates at indices
`0..k` in order and succeeds on the last of them. -/
theorem password_loop_first_success (pw : String) :
    ∀ (pwds : List String) (k : Nat),
      pwds.get? k = some pw →
      (∀ i, i < k → pwds.get? i ≠ some pw) →
      password_loop (.needsPassword pw) pwds = (.success, pwds.take (k + 1))
  | [], k => by simp
  | p :: rest, 0 => by
    intro hget _
    simp only [List.get?] at hget
    have hp : p = pw := by exact Option.some.inj hget
    simp [password_loop, attempt_extract, hp]
  | p :: rest, k + 1 => by
    intro hget hbefore
    have hp : p ≠ pw := by
      intro hc
      exact hbefore 0 (Nat.succ_pos k) (by simp [hc])
    have hrest :
        password_loop (.needsPassword pw) rest = (.success, rest.take (k + 1)) := by
      refine password_loop_first_success pw rest k hget ?_
      intro i hi
      exact hbefore (i + 1) (Nat.succ_lt_succ hi)
    simp [password_loop, attempt_extract, hp, hrest]

/-- C1 (claim from spec §3 invariant, §4.4; code
`CompressedFileHandler._decompress_file`, monitor.py 117-134): starting
from an existing original file, after `_decompress_file` the original has
been removed from disk if and only if the extraction outcome is Success;
in particular after a password-exhausted, corrupted, unsupported-format or
I/O-error outcome the original file still exists. -/
theorem original_removed_iff_success (rarAvail sevenAvail : Bool) (name : String)
    (zb : ArchiveBehavior) (pwds : List String) :
    (decompress_file true rarAvail sevenAvail name zb pwds = false
      ↔ decompress_outcome true rarAvail sevenAvail name zb pwds = .success)
    ∧ (decompress_outcome true rarAvail sevenAvail name zb pwds ≠ .success
      → decompress_file true rarAvail sevenAvail name zb pwds = true) := by
  have h := decompress_bool_eq_outcome true rarAvail sevenAvail name zb pwds
  constructor
  · rw [decompress_file, h]
    by_cases ho : decompress_outcome true rarAvail sevenAvail name zb pwds = .success <;>
      simp [ho, remove_original]
  · intro hne
    rw [decompress_file, h]
    simp [hne]

/-- Witness for C1: a password-protected archive with an empty candidate
list ends password-exhausted and the original stays on disk. -/
theorem original_removed_iff_success_witness :
    decompress_file true true true "secret.zip" (.needsPassword "pw") [] = true :=
  (original_removed_iff_success true true "secret.zip" (.needsPassword "pw") []).2
    (by decide)

/-- C2 counterexample: `Decompressor.decompress` returns a boolean, not a
tagged outcome.  A corrupted archive and a password-exhausted archive are
classified differently by the code's own branches, yet the value returned
to the caller is the same `false` for both, so the caller cannot
distinguish them by the returned value alone. -/
theorem bool_return_indistinguishable_counterexample :
    decompress_outcome true true true "broken.zip" .corrupt ["a", "b"] = .corrupted
    ∧ decompress_outcome true true true "secret.zip" (.needsPassword "pw") ["a", "b"]
        = .passwordExhausted
    ∧ decompress true true true "broken.zip" .corrupt ["a", "b"]
        = decompress true true true "secret.zip" (.needsPassword "pw") ["a", "b"] := by
  refine ⟨by decide, by decide, by decide⟩

/-- C2 amended: the extraction operation returns a boolean that collapses
the five-way outcome classification — `true` exactly when the outcome is
Success; all of unsupported-format, password-exhausted, corrupted and
I/O-error return the same `false`, the distinction surviving only in the
code's internal branches and log messages. -/
theorem decompress_collapses_outcome_to_bool (onDisk rarAvail sevenAvail : Bool)
    (name : String) (zb : ArchiveBehavior) (pwds : List String) :
    decompress onDisk rarAvail sevenAvail name zb pwds =
      decide (decompress_outcome onDisk rarAvail sevenAvail name zb pwds = .success) :=
  decompress_bool_eq_outcome onDisk rarAvail sevenAvail name zb pwds

/-- C3 (spec §4.4 steps 2-4, §8; code `Decompressor._decompress_zip`,
decompressor.py 100-119): for a password-protected archive whose correct
password occurs first at 0-based position `k` of the candidate list,
extraction attempts first with no password, then the candidates at
positions `0..k` strictly in list order — exactly `k` failed candidate
attempts followed by success on the `(k+1)`-th — and the attempt trace
contains no candidate after the success and no position twice. -/
theorem decompress_zip_password_order (pw : String) (pwds : List String) (k : Nat)
    (hget : pwds.get? k = some pw)
    (hbefore : ∀ i, i < k → pwds.get? i ≠ some pw) :
    decompress_zip (.needsPassword pw) pwds =
      (.success, none :: (pwds.take (k + 1)).map some) := by
  have h := password_loop_first_success pw pwds k hget hbefore
  simp [decompress_zip, attempt_extract, h]

/-- Witness for C3: with candidates `["a", "b", "c"]` and correct password
`"b"` (position 1), the trace is the no-password attempt, one failed
candidate, then the successful one — and nothing after. -/
theorem decompress_zip_password_order_witness :
    decompress_zip (.needsPassword "b") ["a", "b", "c"]
      = (.success, [none, some "a", some "b"]) := by
  have hget : (["a", "b", "c"] : List String).get? 1 = some "b" := by decide
  have hbefore : ∀ i, i < 1 → (["a", "b", "c"] : List String).get? i ≠ some "b" := by
    intro i hi
    have h0 : i = 0 := by omega
    subst h0
    decide
  exact decompress_zip_password_order "b" ["a", "b", "c"] 1 hget hbefore

/-! Monitor embedding: `CompressedFileHandler` of `src/monitor.py`.

The file system at one instant is a finite association list of existing
paths with their sizes (`FS`); the parking queue is the insertion-ordered
association list `List (String × Nat)` of parked paths with their park
timestamps, mirroring the Python dict `self.parked_files`. -/

/-- Snapshot of the watched file system: the existing paths, each with
its size in bytes. -/
structure FS where
  files : List (String × Nat)
deriving DecidableEq, Repr

/-- Existence test (`Path.exists()`). -/
def FS.existsFile (fs : FS) (p : String) : Bool :=
  (List.lookup p fs.files).isSome

/-- Size of a file (`Path.stat().st_size`); irrelevant default for a
missing path, the source only reads it after an existence check. -/
def FS.size (fs : FS) (p : String) : Nat :=
  (List.lookup p fs.files).getD 0

/-- Companion suffixes used by downloaders, from the handler's
`companion_extensions` list. -/
def companion_extensions : List String :=
  [".aria2", ".part", ".tmp", ".crdownload", ".download", ".partial", ".!ut", ".bc!"]

/-- Model of `CompressedFileHandler._get_companion_files`: for each known
suffix, the sidecar path is the full file name (extension included) with
the suffix appended; the result collects, in suffix-list order, those
sidecar paths that exist on disk. -/
def get_companion_files (fs : FS) (p : String) : List String :=
  companion_extensions.filterMap (fun ext =>
    let c := p ++ ext
    if fs.existsFile c then some c else none)

/-- Capacity of the parking queue (`self.max_parked_files`). -/
def max_parked_files : Nat := 50

/-- Residency ceiling of the background re-check in seconds
(`max_wait_seconds = 3 * 3600`). -/
def max_wait_seconds : Nat := 3 * 3600

/-- First entry of the queue attaining the minimal park timestamp — the
semantics of Python's `min(self.parked_files.items(), key=lambda x: x[1])`
over an insertion-ordered dict. -/
def oldest_entry : List (String × Nat) → Option (String × Nat)
  | [] => none
  | e :: rest =>
    match oldest_entry rest with
    | none => some e
    | some b => if b.2 < e.2 then some b else some e

/-- Removal of a key from the queue (`del self.parked_files[key]`). -/
def remove_key (p : String) (q : List (String × Nat)) : List (String × Nat) :=
  q.filter (fun e => decide (e.1 ≠ p))

/-- Assignment `self.parked_files[p] = t` on an insertion-ordered dict:
an existing key keeps its position and gets the new value, a new key is
appended at the end. -/
def dict_insert (q : List (String × Nat)) (p : String) (t : Nat) : List (String × Nat) :=
  if q.any (fun e => e.1 == p) then
    q.map (fun e => if e.1 = p then (p, t) else e)
  else q ++ [(p, t)]

/-- Model of `CompressedFileHandler._park_file`: when the queue has
reached capacity, first delete the entry `min(...)` returns (oldest by
timestamp), then assign the current timestamp to the path being parked. -/
def park_file (q : List (String × Nat)) (p : String) (now : Nat) : List (String × Nat) :=
  let q1 :=
    if q.length ≥ max_parked_files then
      match oldest_entry q with
      | some old => remove_key old.1 q
      | none => q
    else q
  dict_insert q1 p now

/-- How `_process_file` disposed of one observed file, named after the
branch taken: the early returns for a missing or empty file, the return
after the file vanished during the 10 second grace sleep, the park branch
and the immediate `_decompress_file` branch. -/
inductive ProcessAction where
  | vanishedBefore : ProcessAction
  | skippedEmpty : ProcessAction
  | vanishedDuringGrace : ProcessAction
  | parked : ProcessAction
  | decompressed : ProcessAction
deriving DecidableEq, Repr

/-- Model of `CompressedFileHandler._process_file`.  `fs0` is the file
system when the handler starts, `fs1` the file system after the 10 second
grace sleep.  Returns the queue afterwards and the branch taken. -/
def process_file (q : List (String × Nat)) (fs0 fs1 : FS) (p : String) (now : Nat) :
    List (String × Nat) × ProcessAction :=
  if !fs0.existsFile p then (q, .vanishedBefore)
  else if fs0.size p = 0 then (q, .skippedEmpty)
  else if !fs1.existsFile p then (q, .vanishedDuringGrace)
  else if get_companion_files fs1 p ≠ [] then (park_file q p now, .parked)
  else (q, .decompressed)

/-- Combined in-memory/on-disk state of the handler: the parking queue
and the file system. -/
structure SysState where
  queue : List (String × Nat)
  fs : FS
deriving DecidableEq, Repr

/-- State-level `_park_file`: it mutates only the in-memory queue. -/
def park_file_state (s : SysState) (p : String) (now : Nat) : SysState :=
  { queue := park_file s.queue p now, fs := s.fs }

/-- Result of the per-entry `try` block of `_check_parked_files`, named
after the branch taken: the file vanished, the residency timeout fired,
the companion set became empty (ready to dispatch), the entry stays
parked, or the check itself raised and the `except` clause fired. -/
inductive EntryCheck where
  | vanished : EntryCheck
  | expired : EntryCheck
  | ready : EntryCheck
  | stillParked : EntryCheck
  | errored : EntryCheck
deriving DecidableEq, Repr

/-- Fallible view of the file system as seen from the background
re-check: `existsF` models `file_path.exists()` and `companionsF`
models `_get_companion_files`, with `none` standing for a raised
exception (caught by the per-entry `except` clause). -/
structure CheckEnv where
  existsF : String → Option Bool
  companionsF : String → Option (List String)

/-- Exception-free view of a concrete file system. -/
def fs_env (fs : FS) : CheckEnv :=
  { existsF := fun p => some (fs.existsFile p),
    companionsF := fun p => some (get_companion_files fs p) }

/-- Per-entry decision of `_check_parked_files`. -/
def check_entry (env : CheckEnv) (now : Nat) (e : String × Nat) : EntryCheck :=
  match env.existsF e.1 with
  | none => .errored
  | some false => .vanished
  | some true =>
    if now - e.2 > max_wait_seconds then .expired
    else
      match env.companionsF e.1 with
      | none => .errored
      | some cs => if cs = [] then .ready else .stillParked

/-- The visit order of `_check_parked_files`:
`sorted(parked_files_copy.items(), key=lambda x: x[1])`. -/
def sort_parked (q : List (String × Nat)) : List (String × Nat) :=
  List.insertionSort (fun a b => a.2 ≤ b.2) q

/-- Observable events of one re-check cycle, in program order: a path is
appended to the local `files_to_unpark` list, a decompression thread is
started for a path, a path is popped from `self.parked_files`. -/
inductive Event where
  | unparkMark : String → Event
  | dispatch : String → Event
  | removeFromQueue : String → Event
deriving DecidableEq, Repr

/-- Events the loop body emits while visiting one entry. -/
def visit_events (env : CheckEnv) (now : Nat) (e : String × Nat) : List Event :=
  match check_entry env now e with
  | .vanished => [.unparkMark e.1]
  | .expired => [.unparkMark e.1]
  | .ready => [.unparkMark e.1, .dispatch e.1]
  | .stillParked => []
  | .errored => [.unparkMark e.1]

/-- Result of one `_check_parked_files` cycle: the queue afterwards, the
paths for which a decompression thread was started, and the full event
trace. -/
structure CheckResult where
  newQueue : List (String × Nat)
  dispatched : List String
  trace : List Event
deriving DecidableEq, Repr

/-- The `files_to_unpark` list one cycle accumulates: the key of every
visited entry whose branch was not "still parked", in visit order. -/
def to_unpark (env : CheckEnv) (now : Nat) (q : List (String × Nat)) : List String :=
  ((sort_parked q).filter (fun e => decide (check_entry env now e ≠ .stillParked))).map (·.1)

/-- Model of `CompressedFileHandler._check_parked_files`: snapshot the
queue, visit the snapshot sorted oldest-first, collect `files_to_unpark`
(every entry whose branch was not "still parked") and start a thread for
every ready entry, then, after the loop, pop the collected paths from the
queue. -/
def check_parked_files (env : CheckEnv) (now : Nat) (q : List (String × Nat)) :
    CheckResult :=
  { newQueue := q.filter (fun e => decide (e.1 ∉ to_unpark env now q)),
    dispatched :=
      ((sort_parked q).filter (fun e => decide (check_entry env now e = .ready))).map (·.1),
    trace :=
      ((sort_parked q).map (visit_events env now)).flatten
        ++ (to_unpark env now q).map Event.removeFromQueue }

/-- State-level re-check with an explicit (possibly fallible) view: only
the in-memory queue is mutated, the file system is read, never written. -/
def check_parked_state (env : CheckEnv) (s : SysState) (now : Nat) :
    SysState × List String × List Event :=
  let r := check_parked_files env now s.queue
  ({ queue := r.newQueue, fs := s.fs }, r.dispatched, r.trace)

/-- State-level re-check reading the actual file system of the state. -/
def check_parked_run (s : SysState) (now : Nat) : SysState × List String × List Event :=
  check_parked_state (fs_env s.fs) s now

theorem oldest_entry_eq_none {q : List (String × Nat)} :
    oldest_entry q = none ↔ q = [] := by
  cases q with
  | nil => simp [oldest_entry]
  | cons e rest =>
    simp only [oldest_entry]
    cases h : oldest_entry rest with
    | none => simp
    | some b =>
      constructor
      · intro hc
        by_cases hb : b.2 < e.2 <;> simp [hb] at hc
      · intro hc
        exact absurd hc (List.cons_ne_nil e rest)

theorem oldest_entry_mem :
    ∀ {q : List (String × Nat)} {old}, oldest_entry q = some old → old ∈ q := by
  intro q
  induction q with
  | nil => intro old h; simp [oldest_entry] at h
  | cons e rest ih =>
    intro old h
    simp only [oldest_entry] at h
    cases hr : oldest_entry rest with
    | none =>
      rw [hr] at h
      simp at h
      simp [h]
    | some b =>
      rw [hr] at h
      by_cases hb : b.2 < e.2
      · simp [hb] at h
        subst h
        exact List.mem_cons_of_mem e (ih hr)
      · simp [hb] at h
        simp [h]

theorem oldest_entry_min :
    ∀ {q : List (String × Nat)} {old}, oldest_entry q = some old →
      ∀ e ∈ q, old.2 ≤ e.2 := by
  intro q
  induction q with
  | nil => intro old h; simp [oldest_entry] at h
  | cons e rest ih =>
    intro old h x hx
    simp only [oldest_entry] at h
    cases hr : oldest_entry rest with
    | none =>
      rw [hr] at h
      simp at h
      have : rest = [] := oldest_entry_eq_none.mp hr
      subst this
      simp at hx
      subst h
      subst hx
      exact Nat.le_refl _
    | some b =>
      rw [hr] at h
      rcases List.mem_cons.mp hx with hx | hx
      · subst hx
        by_cases hb : b.2 < x.2
        · simp [hb] at h
          subst h
          exact Nat.le_of_lt hb
        · simp [hb] at h
          subst h
          exact Nat.le_refl _
      · by_cases hb : b.2 < e.2
        · simp [hb] at h
          subst h
          exact ih hr x hx
        · simp [hb] at h
          subst h
          exact Nat.le_trans (Nat.le_of_not_lt hb) (ih hr x hx)

theorem dict_insert_length (q : List (String × Nat)) (p : String) (t : Nat) :
    (dict_insert q p t).length ≤ q.length + 1 := by
  rw [dict_insert]
  split_ifs with h
  · simp
  · simp

theorem remove_key_length_lt {q : List (String × Nat)} {old : String × Nat}
    (h : old ∈ q) : (remove_key old.1 q).length < q.length := by
  induction q with
  | nil => simp at h
  | cons e rest ih =>
    by_cases he : e.1 = old.1
    · have hfe : (fun x : String × Nat => decide (x.1 ≠ old.1)) e = false := by simp [he]
      simp only [remove_key, List.filter_cons, hfe, Bool.false_eq_true, if_neg,
        if_false, List.length_cons]
      have hle := List.length_filter_le (fun x : String × Nat => decide (x.1 ≠ old.1)) rest
      omega
    · have hold : old ∈ rest := by
        rcases List.mem_cons.mp h with h1 | h1
        · exact absurd (by rw [h1]) he
        · exact h1
      have ih2 := ih hold
      have hfe : (fun x : String × Nat => decide (x.1 ≠ old.1)) e = true := by simp [he]
      simp only [remove_key, List.filter_cons, hfe, if_pos, if_true, List.length_cons] at ih2 ⊢
      omega

theorem park_file_length_le (q : List (String × Nat)) (p : String) (now : Nat)
    (h : q.length ≤ max_parked_files) :
    (park_file q p now).length ≤ max_parked_files := by
  rw [park_file]
  by_cases hc : q.length ≥ max_parked_files
  · have hq : q ≠ [] := by
      intro hnil
      subst hnil
      simp [max_parked_files] at hc
    cases ho : oldest_entry q with
    | none => exact absurd (oldest_entry_eq_none.mp ho) hq
    | some old =>
      have hmem := oldest_entry_mem ho
      have hlt := remove_key_length_lt hmem
      have := dict_insert_length (remove_key old.1 q) p now
      simp only [hc, if_pos, ho]
      omega
  · have := dict_insert_length q p now
    simp only [hc, if_neg, if_false]
    have hlt : q.length < max_parked_files := Nat.lt_of_not_le hc
    omega

/-- C5 (spec §4.2 capacity policy, §8; code
`CompressedFileHandler._park_file`, monitor.py 143-156): the parking
queue never exceeds its configured maximum (50) under any sequence of
park operations; a park issued at capacity first evicts exactly the
entry Python's `min` by park-timestamp returns — an entry of minimal
timestamp — before admitting the new one; and parking mutates only the
in-memory queue, never the file system. -/
theorem park_file_capacity :
    (∀ (q : List (String × Nat)) (p : String) (now : Nat),
      q.length ≤ max_parked_files → (park_file q p now).length ≤ max_parked_files)
    ∧ (∀ (q : List (String × Nat)) (p : String) (now : Nat),
      q.length = max_parked_files →
      ∃ old, oldest_entry q = some old ∧ old ∈ q ∧ (∀ e ∈ q, old.2 ≤ e.2)
        ∧ park_file q p now = dict_insert (remove_key old.1 q) p now)
    ∧ (∀ (s : SysState) (p : String) (now : Nat), (park_file_state s p now).fs = s.fs)
    ∧ (∀ ops : List (String × Nat),
      (ops.foldl (fun q o => park_file q o.1 o.2) []).length ≤ max_parked_files) := by
  refine ⟨park_file_length_le, ?_, fun s p now => rfl, ?_⟩
  · intro q p now h
    have hq : q ≠ [] := by
      intro hnil
      subst hnil
      simp [max_parked_files] at h
    cases ho : oldest_entry q with
    | none => exact absurd (oldest_entry_eq_none.mp ho) hq
    | some old =>
      refine ⟨old, rfl, oldest_entry_mem ho, oldest_entry_min ho, ?_⟩
      rw [park_file]
      have hge : q.length ≥ max_parked_files := Nat.le_of_eq h.symm
      simp [hge, ho]
  · have hstep : ∀ (ops : List (String × Nat)) (q : List (String × Nat)),
        q.length ≤ max_parked_files →
        (ops.foldl (fun q o => park_file q o.1 o.2) q).length ≤ max_parked_files := by
      intro ops
      induction ops with
      | nil => intro q h; simpa using h
      | cons o rest ih =>
        intro q h
        exact ih _ (park_file_length_le q o.1 o.2 h)
    intro ops
    exact hstep ops [] (by simp [max_parked_files])

/-- Concrete queue at capacity used by the C5 witness. -/
def q50 : List (String × Nat) := (List.range 50).map (fun i => (Nat.repr i, i))

/-- Witness for C5 at a queue that is exactly at capacity. -/
theorem park_file_capacity_witness :
    (park_file q50 "new.zip" 99).length ≤ max_parked_files
    ∧ ∃ old, oldest_entry q50 = some old ∧ old ∈ q50 ∧ (∀ e ∈ q50, old.2 ≤ e.2)
        ∧ park_file q50 "new.zip" 99 = dict_insert (remove_key old.1 q50) "new.zip" 99 :=
  ⟨park_file_capacity.1 q50 "new.zip" 99 (by rfl),
   park_file_capacity.2.1 q50 "new.zip" 99 (by rfl)⟩

theorem lookup_dict_insert (q : List (String × Nat)) (p : String) (t : Nat) :
    List.lookup p (dict_insert q p t) = some t := by
  rw [dict_insert]
  split_ifs with h
  · induction q with
    | nil => simp at h
    | cons e rest ih =>
      obtain ⟨k, v⟩ := e
      by_cases he : k = p
      · subst he
        simp [List.lookup_cons]
      · have h2 : rest.any (fun e => e.1 == p) = true := by
          simp only [List.any_cons, Bool.or_eq_true] at h
          rcases h with h | h
          · exact absurd (by simpa using h) he
          · exact h
        have hne : (p == k) = false := by
          simp only [beq_eq_false_iff_ne, ne_eq]
          exact fun hc => he hc.symm
        simp only [List.map_cons, if_neg he, List.lookup_cons, hne]
        exact ih h2
  · induction q with
    | nil => simp [List.lookup]
    | cons e rest ih =>
      obtain ⟨k, v⟩ := e
      simp only [List.any_cons, Bool.or_eq_true, not_or] at h
      rcases h with ⟨h1, h2⟩
      have he : k ≠ p := by simpa using h1
      have hne : (p == k) = false := by
        simp only [beq_eq_false_iff_ne, ne_eq]
        exact fun hc => he hc.symm
      simp only [List.cons_append, List.lookup_cons, hne]
      exact ih h2

theorem dict_insert_keys_nodup {q : List (String × Nat)} (p : String) (t : Nat)
    (h : (q.map (·.1)).Nodup) : ((dict_insert q p t).map (·.1)).Nodup := by
  rw [dict_insert]
  split_ifs with hp
  · have hkeys : (q.map (fun e => if e.1 = p then (p, t) else e)).map (·.1) = q.map (·.1) := by
      rw [List.map_map]
      refine List.map_congr_left ?_
      intro e _
      by_cases he : e.1 = p <;> simp [he]
    rw [hkeys]
    exact h
  · have hnp : p ∉ q.map (·.1) := by
      intro hc
      rcases List.mem_map.mp hc with ⟨e, he, hfe⟩
      have : q.any (fun e => e.1 == p) = true :=
        List.any_eq_true.mpr ⟨e, he, by simpa using hfe⟩
      exact hp this
    rw [List.map_append]
    refine List.Nodup.append h (by simp) ?_
    intro a ha hb
    simp at hb
    subst hb
    exact hnp ha

theorem park_file_keys_nodup {q : List (String × Nat)} (p : String) (t : Nat)
    (h : (q.map (·.1)).Nodup) : ((park_file q p t).map (·.1)).Nodup := by
  rw [park_file]
  have hsub : ∀ (old : String × Nat), ((remove_key old.1 q).map (·.1)).Nodup := by
    intro old
    exact List.Nodup.sublist (List.Sublist.map _ (List.filter_sublist q)) h
  split_ifs with hc
  · cases ho : oldest_entry q with
    | none => exact dict_insert_keys_nodup p t h
    | some old => exact dict_insert_keys_nodup p t (hsub old)
  · exact dict_insert_keys_nodup p t h

/-- C8 counterexample: re-parking an already-parked path does NOT leave
the existing entry's park-timestamp unchanged — `_park_file`
unconditionally assigns the current time, resetting the residency
clock. -/
theorem park_repark_timestamp_counterexample :
    List.lookup "a.zip" (park_file [("a.zip", 5)] "a.zip" 20)
      ≠ List.lookup "a.zip" [("a.zip", 5)] := by decide

/-- C8 amended (spec §3 ParkedEntry invariant, §4.3; code
`CompressedFileHandler._park_file`, monitor.py 143-153): a path appears
at most once in the parking queue (the queue is a dict keyed by path, and
parking preserves key uniqueness), but a duplicate park request does
re-park: it overwrites the existing entry's park-timestamp with the
current time, resetting its residency clock, rather than leaving it
unchanged. -/
theorem park_at_most_once (q : List (String × Nat)) (p : String) (t : Nat) :
    ((q.map (·.1)).Nodup → ((park_file q p t).map (·.1)).Nodup)
    ∧ (p ∈ q.map (·.1) → List.lookup p (park_file q p t) = some t) := by
  constructor
  · exact park_file_keys_nodup p t
  · intro _
    rw [park_file]
    split_ifs with hc
    · cases ho : oldest_entry q with
      | none => exact lookup_dict_insert q p t
      | some old => exact lookup_dict_insert (remove_key old.1 q) p t
    · exact lookup_dict_insert q p t

/-- Witness for C8: on a one-entry queue the re-park keeps exactly one
entry for the path, now carrying the fresh timestamp. -/
theorem park_at_most_once_witness :
    (((park_file [("a.zip", 5)] "a.zip" 20).map (·.1)).Nodup)
    ∧ List.lookup "a.zip" (park_file [("a.zip", 5)] "a.zip" 20) = some 20 :=
  ⟨(park_at_most_once [("a.zip", 5)] "a.zip" 20).1 (by decide),
   (park_at_most_once [("a.zip", 5)] "a.zip" 20).2 (by decide)⟩

/-- C9 counterexample: a zero-byte file is neither extracted nor parked,
but it is also NOT re-queued anywhere — `_process_file` just logs
"is empty, skipping" and returns, leaving the path in no tracking
structure. -/
theorem zero_byte_not_requeued_counterexample :
    process_file [] ⟨[("e.zip", 0)]⟩ ⟨[("e.zip", 0)]⟩ "e.zip" 7 = ([], .skippedEmpty)
    ∧ ("e.zip" ∉ (process_file [] ⟨[("e.zip", 0)]⟩ ⟨[("e.zip", 0)]⟩ "e.zip" 7).1.map (·.1)) := by
  refine ⟨by decide, by decide⟩

/-- C9 amended (spec §4.1 edge cases; code
`CompressedFileHandler._process_file`, monitor.py 89-92): a file whose
size is zero at processing time is neither extracted nor parked; the
handler simply returns after logging, leaving the queue unchanged, so the
file is reconsidered only if a future filesystem event or startup scan
observes it again — it is not re-queued by the handler itself. -/
theorem zero_byte_skipped (q : List (String × Nat)) (fs0 fs1 : FS) (p : String) (now : Nat)
    (hex : fs0.existsFile p = true) (hsz : fs0.size p = 0) :
    process_file q fs0 fs1 p now = (q, .skippedEmpty) := by
  simp [process_file, hex, hsz]

/-- Witness for C9 at a concrete zero-byte file. -/
theorem zero_byte_skipped_witness :
    process_file [("x.zip", 1)] ⟨[("e.zip", 0)]⟩ ⟨[("e.zip", 0)]⟩ "e.zip" 7
      = ([("x.zip", 1)], .skippedEmpty) :=
  zero_byte_skipped [("x.zip", 1)] ⟨[("e.zip", 0)]⟩ ⟨[("e.zip", 0)]⟩ "e.zip" 7
    (by decide) (by decide)

/-- C7 (spec §4.1 contract, §4.3 processing decision; code
`CompressedFileHandler._get_companion_files` monitor.py 248-266 and
`_process_file` monitor.py 103-112): the companion set is exactly the set
of paths obtained by appending a known in-progress suffix to the full
file name (extension included) that exist on disk; and after the grace
period an existing, non-empty file is parked when its companion set is
non-empty and dispatched directly to decompression when it is empty. -/
theorem companion_set_and_dispatch :
    (∀ (fs : FS) (p c : String),
      c ∈ get_companion_files fs p
        ↔ ∃ ext ∈ companion_extensions, c = p ++ ext ∧ fs.existsFile c = true)
    ∧ (∀ (q : List (String × Nat)) (fs0 fs1 : FS) (p : String) (now : Nat),
      fs0.existsFile p = true → fs0.size p ≠ 0 → fs1.existsFile p = true →
      (get_companion_files fs1 p ≠ [] →
        process_file q fs0 fs1 p now = (park_file q p now, .parked))
      ∧ (get_companion_files fs1 p = [] →
        process_file q fs0 fs1 p now = (q, .decompressed))) := by
  constructor
  · intro fs p c
    simp only [get_companion_files, List.mem_filterMap]
    constructor
    · rintro ⟨ext, hext, hc⟩
      by_cases hex : fs.existsFile (p ++ ext)
      · simp [hex] at hc
        exact ⟨ext, hext, hc.symm ▸ ⟨rfl, hc ▸ hex⟩⟩
      · simp [hex] at hc
    · rintro ⟨ext, hext, hc, hex⟩
      subst hc
      exact ⟨ext, hext, by simp [hex]⟩
  · intro q fs0 fs1 p now hex0 hsz hex1
    constructor
    · intro hcomp
      simp [process_file, hex0, hsz, hex1, hcomp]
    · intro hcomp
      simp [process_file, hex0, hsz, hex1, hcomp]

/-- Witness for C7: `m.zip` with an existing `m.zip.part` sidecar is
parked; the same file without the sidecar is dispatched. -/
theorem companion_set_and_dispatch_witness :
    (process_file [] ⟨[("m.zip", 3), ("m.zip.part", 1)]⟩ ⟨[("m.zip", 3), ("m.zip.part", 1)]⟩
        "m.zip" 7 = (park_file [] "m.zip" 7, .parked))
    ∧ (process_file [] ⟨[("m.zip", 3)]⟩ ⟨[("m.zip", 3)]⟩ "m.zip" 7 = ([], .decompressed)) :=
  ⟨(companion_set_and_dispatch.2 [] ⟨[("m.zip", 3), ("m.zip.part", 1)]⟩
      ⟨[("m.zip", 3), ("m.zip.part", 1)]⟩ "m.zip" 7 (by decide) (by decide) (by decide)).1
      (by decide),
   (companion_set_and_dispatch.2 [] ⟨[("m.zip", 3)]⟩ ⟨[("m.zip", 3)]⟩ "m.zip" 7
      (by decide) (by decide) (by decide)).2 (by decide)⟩

instance : IsTotal (String × Nat) (fun a b => a.2 ≤ b.2) :=
  ⟨fun a b => Nat.le_total a.2 b.2⟩

instance : IsTrans (String × Nat) (fun a b => a.2 ≤ b.2) :=
  ⟨fun _ _ _ h1 h2 => Nat.le_trans h1 h2⟩

theorem sort_parked_perm (q : List (String × Nat)) : (sort_parked q).Perm q :=
  List.perm_insertionSort _ q

theorem sort_parked_sorted (q : List (String × Nat)) :
    List.Sorted (fun a b => a.2 ≤ b.2) (sort_parked q) :=
  List.sorted_insertionSort _ q

theorem mem_sort_parked {q : List (String × Nat)} {e : String × Nat} :
    e ∈ sort_parked q ↔ e ∈ q :=
  (sort_parked_perm q).mem_iff

theorem key_inj {q : List (String × Nat)} (hnd : (q.map (·.1)).Nodup)
    {e e' : String × Nat} (he : e ∈ q) (he' : e' ∈ q) (hk : e.1 = e'.1) : e = e' :=
  List.inj_on_of_nodup_map hnd he he' hk

theorem mem_to_unpark_iff (env : CheckEnv) (now : Nat) {q : List (String × Nat)}
    (hnd : (q.map (·.1)).Nodup) {e : String × Nat} (he : e ∈ q) :
    e.1 ∈ to_unpark env now q ↔ check_entry env now e ≠ .stillParked := by
  constructor
  · intro h
    rcases List.mem_map.mp h with ⟨x, hx, hxe⟩
    rcases List.mem_filter.mp hx with ⟨hxs, hxp⟩
    have hxq : x ∈ q := mem_sort_parked.mp hxs
    have hx_e : x = e := key_inj hnd hxq he hxe
    subst hx_e
    exact of_decide_eq_true hxp
  · intro h
    refine List.mem_map.mpr ⟨e, ?_, rfl⟩
    exact List.mem_filter.mpr ⟨mem_sort_parked.mpr he, decide_eq_true h⟩

theorem mem_dispatched_iff (env : CheckEnv) (now : Nat) {q : List (String × Nat)}
    (hnd : (q.map (·.1)).Nodup) {e : String × Nat} (he : e ∈ q) :
    e.1 ∈ (check_parked_files env now q).dispatched ↔ check_entry env now e = .ready := by
  simp only [check_parked_files]
  constructor
  · intro h
    rcases List.mem_map.mp h with ⟨x, hx, hxe⟩
    rcases List.mem_filter.mp hx with ⟨hxs, hxp⟩
    have hxq : x ∈ q := mem_sort_parked.mp hxs
    have hx_e : x = e := key_inj hnd hxq he hxe
    subst hx_e
    exact of_decide_eq_true hxp
  · intro h
    refine List.mem_map.mpr ⟨e, ?_, rfl⟩
    exact List.mem_filter.mpr ⟨mem_sort_parked.mpr he, decide_eq_true h⟩

theorem mem_new_queue_keys_iff (env : CheckEnv) (now : Nat) {q : List (String × Nat)}
    (hnd : (q.map (·.1)).Nodup) {e : String × Nat} (he : e ∈ q) :
    e.1 ∈ (check_parked_files env now q).newQueue.map (·.1)
      ↔ check_entry env now e = .stillParked := by
  simp only [check_parked_files]
  constructor
  · intro h
    rcases List.mem_map.mp h with ⟨x, hx, hxe⟩
    rcases List.mem_filter.mp hx with ⟨hxq, hxp⟩
    have hx_e : x = e := key_inj hnd hxq he hxe
    subst hx_e
    have hnot : x.1 ∉ to_unpark env now q := of_decide_eq_true hxp
    by_contra hne
    exact hnot ((mem_to_unpark_iff env now hnd he).mpr hne)
  · intro h
    have hnot : e.1 ∉ to_unpark env now q := fun hc =>
      (mem_to_unpark_iff env now hnd he).mp hc h
    exact List.mem_map.mpr ⟨e, List.mem_filter.mpr ⟨he, decide_eq_true hnot⟩, rfl⟩

theorem check_entry_fs_env (fs : FS) (now : Nat) (e : String × Nat) :
    check_entry (fs_env fs) now e =
      if fs.existsFile e.1 then
        if now - e.2 > max_wait_seconds then .expired
        else if get_companion_files fs e.1 = [] then .ready else .stillParked
      else .vanished := by
  cases h : fs.existsFile e.1 <;> simp [check_entry, fs_env, h]

/-- C6 (spec §4.2 algorithm, §5 ordering; code
`CompressedFileHandler._check_parked_files`, monitor.py 179-237): one
background cycle visits the parked entries oldest-first by park-timestamp
(the visit order is sorted by timestamp and a permutation of the queue),
and each entry ends in exactly one of the four states — Vanished (missing
file: dropped, not dispatched), Expired (residency above the 3 hour
ceiling: dropped, not dispatched, file left on disk), Ready (empty
companion set: dropped and dispatched to a concurrent decompression
task), or still parked (non-empty companion set: retained, not
dispatched) — while the cycle itself never writes the file system. -/
theorem check_parked_files_classification (fs : FS) (now : Nat) (q : List (String × Nat))
    (hnd : (q.map (·.1)).Nodup) :
    (List.Sorted (fun a b => a.2 ≤ b.2) (sort_parked q) ∧ (sort_parked q).Perm q)
    ∧ (∀ e ∈ q,
        (fs.existsFile e.1 = false →
          e.1 ∉ (check_parked_files (fs_env fs) now q).newQueue.map (·.1)
          ∧ e.1 ∉ (check_parked_files (fs_env fs) now q).dispatched)
        ∧ (fs.existsFile e.1 = true → now - e.2 > max_wait_seconds →
          e.1 ∉ (check_parked_files (fs_env fs) now q).newQueue.map (·.1)
          ∧ e.1 ∉ (check_parked_files (fs_env fs) now q).dispatched)
        ∧ (fs.existsFile e.1 = true → now - e.2 ≤ max_wait_seconds →
            get_companion_files fs e.1 = [] →
          e.1 ∉ (check_parked_files (fs_env fs) now q).newQueue.map (·.1)
          ∧ e.1 ∈ (check_parked_files (fs_env fs) now q).dispatched)
        ∧ (fs.existsFile e.1 = true → now - e.2 ≤ max_wait_seconds →
            get_companion_files fs e.1 ≠ [] →
          e.1 ∈ (check_parked_files (fs_env fs) now q).newQueue.map (·.1)
          ∧ e.1 ∉ (check_parked_files (fs_env fs) now q).dispatched))
    ∧ (∀ (s : SysState) (t : Nat), (check_parked_run s t).1.fs = s.fs) := by
  refine ⟨⟨sort_parked_sorted q, sort_parked_perm q⟩, ?_, fun s t => rfl⟩
  intro e he
  have hq := mem_new_queue_keys_iff (fs_env fs) now hnd he
  have hd := mem_dispatched_iff (fs_env fs) now hnd he
  have hce := check_entry_fs_env fs now e
  refine ⟨?_, ?_, ?_, ?_⟩
  · intro hex
    have hval : check_entry (fs_env fs) now e = .vanished := by
      rw [hce, hex]
      simp
    constructor
    · intro hc
      have h2 := hq.mp hc
      rw [hval] at h2
      exact absurd h2 (by decide)
    · intro hc
      have h2 := hd.mp hc
      rw [hval] at h2
      exact absurd h2 (by decide)
  · intro hex htime
    have hval : check_entry (fs_env fs) now e = .expired := by
      rw [hce, hex]
      simp [htime]
    constructor
    · intro hc
      have h2 := hq.mp hc
      rw [hval] at h2
      exact absurd h2 (by decide)
    · intro hc
      have h2 := hd.mp hc
      rw [hval] at h2
      exact absurd h2 (by decide)
  · intro hex htime hcomp
    have hval : check_entry (fs_env fs) now e = .ready := by
      rw [hce, hex]
      simp [Nat.not_lt.mpr htime, hcomp]
    constructor
    · intro hc
      have h2 := hq.mp hc
      rw [hval] at h2
      exact absurd h2 (by decide)
    · exact hd.mpr hval
  · intro hex htime hcomp
    have hval : check_entry (fs_env fs) now e = .stillParked := by
      rw [hce, hex]
      simp [Nat.not_lt.mpr htime, hcomp]
    constructor
    · exact hq.mpr hval
    · intro hc
      have h2 := hd.mp hc
      rw [hval] at h2
      exact absurd h2 (by decide)

/-- Witness for C6: an existing file with no companions is dispatched by
the cycle. -/
theorem check_parked_files_classification_witness :
    "a.zip" ∈ (check_parked_files (fs_env ⟨[("a.zip", 3)]⟩) 1 [("a.zip", 0)]).dispatched :=
  (((check_parked_files_classification ⟨[("a.zip", 3)]⟩ 1 [("a.zip", 0)]
      (by decide)).2.1 ("a.zip", 0) (by decide)).2.2.1 (by decide) (by decide) (by decide)).2

/-- C10 (implicit claim; code `CompressedFileHandler._check_parked_files`
monitor.py 227-234): an entry whose per-entry check raises (modelled by a
fallible environment) is appended to `files_to_unpark` and therefore
removed from the queue at the end of the cycle — not retried on a later
cycle — without being dispatched; entries whose own check classifies
ready are still dispatched regardless; and the cycle never writes the
file system. -/
theorem errored_entry_unparked (env : CheckEnv) (now : Nat) (q : List (String × Nat))
    (hnd : (q.map (·.1)).Nodup) :
    (∀ e ∈ q, check_entry env now e = .errored →
      e.1 ∉ (check_parked_files env now q).newQueue.map (·.1)
      ∧ e.1 ∉ (check_parked_files env now q).dispatched)
    ∧ (∀ e ∈ q, check_entry env now e = .ready →
      e.1 ∈ (check_parked_files env now q).dispatched)
    ∧ (∀ (s : SysState) (t : Nat), (check_parked_state env s t).1.fs = s.fs) := by
  refine ⟨?_, ?_, fun s t => rfl⟩
  · intro e he herr
    have hq := mem_new_queue_keys_iff env now hnd he
    have hd := mem_dispatched_iff env now hnd he
    constructor
    · intro hc
      have h2 := hq.mp hc
      rw [herr] at h2
      exact absurd h2 (by decide)
    · intro hc
      have h2 := hd.mp hc
      rw [herr] at h2
      exact absurd h2 (by decide)
  · intro e he hready
    exact (mem_dispatched_iff env now hnd he).mpr hready

/-- Environment for the C10 witness: checking `bad.zip` raises, every
other path exists with no companions. -/
def errEnv : CheckEnv :=
  { existsF := fun p => if p = "bad.zip" then none else some true,
    companionsF := fun _ => some [] }

/-- Witness for C10: the entry whose check raises is dropped and not
dispatched, while the healthy later entry is still dispatched. -/
theorem errored_entry_unparked_witness :
    ("bad.zip" ∉ (check_parked_files errEnv 5 [("bad.zip", 0), ("good.zip", 1)]).newQueue.map (·.1)
      ∧ "bad.zip" ∉ (check_parked_files errEnv 5 [("bad.zip", 0), ("good.zip", 1)]).dispatched)
    ∧ "good.zip" ∈ (check_parked_files errEnv 5 [("bad.zip", 0), ("good.zip", 1)]).dispatched :=
  ⟨(errored_entry_unparked errEnv 5 [("bad.zip", 0), ("good.zip", 1)] (by decide)).1
      ("bad.zip", 0) (by decide) (by decide),
   (errored_entry_unparked errEnv 5 [("bad.zip", 0), ("good.zip", 1)] (by decide)).2.1
      ("good.zip", 1) (by decide) (by decide)⟩

theorem get_append_of_get_left {α : Type} {l1 l2 : List α} (i : Fin l1.length)
    (ht : i.val < (l1 ++ l2).length) : (l1 ++ l2).get ⟨i.val, ht⟩ = l1.get i := by
  rw [List.get_append _ i.isLt]

theorem get_append_of_get_right {α : Type} {l1 l2 : List α} (j : Fin l2.length)
    (ht : l1.length + j.val < (l1 ++ l2).length) :
    (l1 ++ l2).get ⟨l1.length + j.val, ht⟩ = l2.get j := by
  have hle : l1.length ≤ l1.length + j.val := Nat.le_add_right _ _
  have hlt : l1.length + j.val - l1.length < l2.length := by omega
  rw [@List.get_append_right _ (l1.length + j.val) l1 l2 hle ht hlt]
  have hfin : (⟨l1.length + j.val - l1.length, hlt⟩ : Fin l2.length) = j :=
    Fin.ext (by show l1.length + j.val - l1.length = j.val
                omega)
  rw [hfin]

/-- Formalisation of claim C4's ordering: every dispatched path has its
queue-removal event strictly before its dispatch event in the cycle
trace. -/
def removed_before_dispatch (tr : List Event) : Prop :=
  ∀ p, Event.dispatch p ∈ tr →
    ∃ i j : Fin tr.length, i < j
      ∧ tr.get i = Event.removeFromQueue p ∧ tr.get j = Event.dispatch p

/-- Environment in which every parked file exists and has an empty
companion set, so every entry is ready. -/
def ready_env : CheckEnv :=
  { existsF := fun _ => some true, companionsF := fun _ => some [] }

/-- C4 counterexample: in `_check_parked_files` the decompression thread
for a ready path is started inside the visit loop, while the path is
removed from `self.parked_files` only after the loop; in the cycle trace
of a single ready entry the dispatch event precedes the removal event,
so the path is NOT removed from the parked set before its extraction
task is launched. -/
theorem dispatch_before_remove_counterexample :
    ¬ removed_before_dispatch (check_parked_files ready_env 10 [("a.zip", 0)]).trace := by
  intro h
  have hd : Event.dispatch "a.zip" ∈ (check_parked_files ready_env 10 [("a.zip", 0)]).trace := by
    decide
  have h2 := h "a.zip" hd
  exact absurd h2 (by decide)

/-- C4 amended (spec §5 mutual exclusion; code
`CompressedFileHandler._check_parked_files`, monitor.py 213-234): a
dispatched path is appended to the local `files_to_unpark` list before
its extraction thread starts, and is popped from the parked set only at
the end of the same cycle — so the dispatch event precedes the removal
event (not the converse), the path is gone from the queue once the cycle
ends, and, an entry key being unique, each path is dispatched at most
once per cycle. -/
theorem dispatch_then_remove (env : CheckEnv) (now : Nat) (q : List (String × Nat))
    (hnd : (q.map (·.1)).Nodup) :
    (check_parked_files env now q).dispatched.Nodup
    ∧ ∀ p ∈ (check_parked_files env now q).dispatched,
        p ∉ (check_parked_files env now q).newQueue.map (·.1)
        ∧ ∃ i j : Fin (check_parked_files env now q).trace.length, i < j
            ∧ (check_parked_files env now q).trace.get i = Event.dispatch p
            ∧ (check_parked_files env now q).trace.get j = Event.removeFromQueue p := by
  constructor
  · have hsub :
        (check_parked_files env now q).dispatched.Sublist ((sort_parked q).map (·.1)) := by
      simp only [check_parked_files]
      exact List.Sublist.map _ (List.filter_sublist _)
    have hperm : ((sort_parked q).map (·.1)).Perm (q.map (·.1)) :=
      (sort_parked_perm q).map _
    exact List.Nodup.sublist hsub (hperm.nodup_iff.mpr hnd)
  · intro p hp
    rcases List.mem_map.mp hp with ⟨x, hx, hxe⟩
    rcases List.mem_filter.mp hx with ⟨hxs, hxp⟩
    have hxready : check_entry env now x = .ready := of_decide_eq_true hxp
    have hxq : x ∈ q := mem_sort_parked.mp hxs
    have hpu : p ∈ to_unpark env now q := by
      subst hxe
      exact (mem_to_unpark_iff env now hnd hxq).mpr (by rw [hxready]; decide)
    constructor
    · intro hc
      rcases List.mem_map.mp hc with ⟨y, hy, hye⟩
      rcases List.mem_filter.mp hy with ⟨_, hyp⟩
      have : y.1 ∉ to_unpark env now q := of_decide_eq_true hyp
      rw [hye] at this
      exact this hpu
    · have hdV : Event.dispatch p ∈ ((sort_parked q).map (visit_events env now)).flatten := by
        refine List.mem_flatten.mpr ⟨visit_events env now x, List.mem_map.mpr ⟨x, hxs, rfl⟩, ?_⟩
        rw [visit_events, hxready, hxe]
        simp
      have hrR : Event.removeFromQueue p ∈ (to_unpark env now q).map Event.removeFromQueue :=
        List.mem_map.mpr ⟨p, hpu, rfl⟩
      rcases List.mem_iff_get.mp hdV with ⟨iv, hiv⟩
      rcases List.mem_iff_get.mp hrR with ⟨jr, hjr⟩
      have hlen : (check_parked_files env now q).trace.length =
          ((sort_parked q).map (visit_events env now)).flatten.length
            + ((to_unpark env now q).map Event.removeFromQueue).length := by
        simp [check_parked_files]
      have hiv2 : iv.val < (check_parked_files env now q).trace.length := by
        rw [hlen]
        exact Nat.lt_of_lt_of_le iv.isLt (Nat.le_add_right _ _)
      have hjv2 : ((sort_parked q).map (visit_events env now)).flatten.length + jr.val
          < (check_parked_files env now q).trace.length := by
        rw [hlen]
        exact Nat.add_lt_add_left jr.isLt _
      refine ⟨⟨iv.val, hiv2⟩,
        ⟨((sort_parked q).map (visit_events env now)).flatten.length + jr.val, hjv2⟩,
        Fin.mk_lt_mk.mpr (Nat.lt_of_lt_of_le iv.isLt (Nat.le_add_right _ _)), ?_, ?_⟩
      · exact (get_append_of_get_left iv hiv2).trans hiv
      · exact (get_append_of_get_right jr hjv2).trans hjr

/-- Witness for the amended C4 on a one-entry ready queue. -/
theorem dispatch_then_remove_witness :
    (check_parked_files ready_env 10 [("b.zip", 0)]).dispatched.Nodup
    ∧ ("b.zip" ∉ (check_parked_files ready_env 10 [("b.zip", 0)]).newQueue.map (·.1)
      ∧ ∃ i j : Fin (check_parked_files ready_env 10 [("b.zip", 0)]).trace.length, i < j
          ∧ (check_parked_files ready_env 10 [("b.zip", 0)]).trace.get i
              = Event.dispatch "b.zip"
          ∧ (check_parked_files ready_env 10 [("b.zip", 0)]).trace.get j
              = Event.removeFromQueue "b.zip") :=
  ⟨(dispatch_then_remove ready_env 10 [("b.zip", 0)] (by decide)).1,
   (dispatch_then_remove ready_env 10 [("b.zip", 0)] (by decide)).2 "b.zip" (by decide)⟩

end AutoDecomp
